import Mathlib

/-!
Shallow embedding of the per-thread fast-path lock ledger
(`src/hotspot/share/runtime/lockStack.cpp`, class `LockStack`).

Object references (`oop`) are modelled as `Option Nat`: `none` stands for
`nullptr` and `some v` for a non-null reference with identity `v`.  The
ledger's backing array `_base` is a list of slots; the cursor `_top` is a
byte offset, exactly as in the source.  Compile-time parameters of the build
(`CAPACITY`, `oopSize`, the byte offset of `_base` inside `JavaThread`,
`VM_Version::supports_recursive_lightweight_locking()`) are gathered in a
configuration record.  Assertion-checked code is modelled by `Bool`-valued
functions that return `true` exactly when no `assert`/`guarantee` fires.
-/

namespace LoomLockStack

/-- An object reference: `none` is `nullptr`. -/
abbrev Oop := Option Nat

/-- Compile-time / VM-global parameters of the build. -/
structure LSConfig where
  /-- `LockStack::CAPACITY`, the fixed slot count. -/
  capacity : Nat
  /-- `oopSize`, the byte size of one object-reference slot. -/
  oopSize : Nat
  /-- `lock_stack_base_offset = in_bytes(JavaThread::lock_stack_base_offset())`,
  the byte offset of `_base[0]` inside the owning thread's control block. -/
  baseOffset : Nat
  /-- `VM_Version::supports_recursive_lightweight_locking()`. -/
  supportsRecursive : Bool

/-- The mutable state of one `LockStack`: the `_top` byte-offset cursor
and the `_base` slot array (length `capacity`). -/
structure LockStack where
  top : Nat
  base : List Oop

/-- Read `_base[i]`; out-of-range reads yield `none` (never exercised by
in-contract code paths). -/
def LockStack.slot (ls : LockStack) (i : Nat) : Oop :=
  ls.base.getD i none

/-- `LockStack::start_offset()`: returns `lock_stack_base_offset`
(the C++ code asserts positivity and casts the `int` to `uint32_t`,
which is the identity for the positive in-range values involved). -/
def start_offset (cfg : LSConfig) : Nat :=
  cfg.baseOffset

/-- `LockStack::end_offset()`: `lock_stack_base_offset + CAPACITY * oopSize`. -/
def end_offset (cfg : LSConfig) : Nat :=
  cfg.baseOffset + cfg.capacity * cfg.oopSize

/-- Modelled from the spec: `LockStack::to_index` lives in the header
`lockStack.hpp`, which is not part of this corpus; the spec defines the
conversion as pure arithmetic `index = (offset - start_offset) / slot_size`. -/
def toIndex (cfg : LSConfig) (offset : Nat) : Nat :=
  (offset - cfg.baseOffset) / cfg.oopSize

/-- The current number of live entries, `to_index(_top)` — called `n`
in the spec. -/
def topIndex (cfg : LSConfig) (ls : LockStack) : Nat :=
  toIndex cfg ls.top

/-- Modelled from the spec: `LockStack::contains` lives in
`lockStack.inline.hpp`, which is not part of this corpus; the spec defines it
as a linear scan of the live region returning whether the reference is
present (the scan direction does not affect the boolean result). -/
def LockStack.contains (cfg : LSConfig) (ls : LockStack) (o : Nat) : Bool :=
  (List.range (topIndex cfg ls)).any fun i => ls.slot i = some o

/-- `LockStack::LockStack(JavaThread*)`: the constructor sets
`_top = lock_stack_base_offset` and (under `#ifdef ASSERT`, which this
embedding models) writes `nullptr` into every one of the `CAPACITY` slots. -/
def LockStack.init (cfg : LSConfig) : LockStack :=
  { top := cfg.baseOffset
    base := List.replicate cfg.capacity none }

/-! ### Structural verifier `LockStack::verify` -/

/-- The inner run-skipping loop of `LockStack::verify`
(`for (; i < top - 1; i++) { if (_base[i + 1] != o) break; }`):
starting at `i`, advance while the next slot still holds `o`.
Returns the final value of `i` (the last index of the run).  The structural
`fuel` argument only bounds the iteration count: every caller passes at
least `top`, which always exceeds the remaining iterations, so the result
agrees with the unbounded C loop. -/
def skipRun (base : Nat → Oop) (top : Nat) (o : Oop) : Nat → Nat → Nat
  | i, 0 => i
  | i, fuel + 1 =>
    if i + 1 < top ∧ base (i + 1) = o then skipRun base top o (i + 1) fuel else i

/-- One uniqueness pass of `LockStack::verify`
(`for (int j = i + 1; j < top; j++) assert(_base[i] != _base[j])`). -/
def uniqueFrom (base : Nat → Oop) (top i : Nat) : Bool :=
  (List.range' (i + 1) (top - (i + 1))).all fun j => base i ≠ base j

/-- Where the outer loop index stands after the (conditional) run-skipping:
`i` itself when recursion support is off, the end of the run otherwise. -/
def runEnd (sr : Bool) (base : Nat → Oop) (top i : Nat) : Nat :=
  if sr then skipRun base top (base i) i top else i

/-- The outer slot loop of `LockStack::verify` (lines 83–98): at each outer
iteration the current slot must be non-null; with recursion support the
index is advanced over the run of equal consecutive entries; then the
current slot is checked distinct from every later slot.  The structural
`fuel` argument only bounds the iteration count: every caller passes at
least `top - i`, which always covers the remaining iterations, so the scan
agrees with the unbounded C loop. -/
def verifyScan (sr : Bool) (base : Nat → Oop) (top : Nat) : Nat → Nat → Bool
  | _, 0 => true
  | i, fuel + 1 =>
    if i < top then
      (base i ≠ none : Bool) &&
      uniqueFrom base top (runEnd sr base top i) &&
      verifyScan sr base top (runEnd sr base top i + 1) fuel
    else
      true

/-- `LockStack::verify(const char*)` (lines 77–103), as the predicate "no
assertion fires".  Inputs beyond the ledger state: whether
`LockingMode == LM_LIGHTWEIGHT`, `SafepointSynchronize::is_at_safepoint()`,
`Thread::current()->is_Java_thread()` and `is_owning_thread()`. -/
def verify (lockingModeLW atSafepoint isJavaThread isOwner : Bool)
    (cfg : LSConfig) (ls : LockStack) : Bool :=
  lockingModeLW &&
  decide (ls.top ≤ end_offset cfg) &&
  decide (start_offset cfg ≤ ls.top) &&
  (if atSafepoint || (isJavaThread && isOwner) then
    verifyScan cfg.supportsRecursive ls.slot (topIndex cfg ls) 0 (topIndex cfg ls) &&
    ((List.range' (topIndex cfg ls) (cfg.capacity - topIndex cfg ls)).all
      fun i => ls.slot i = none)
  else true)

/-! ### Lock-order cross-checker `LockStack::verify_consistent_lock_order` -/

/-- The external per-object view the cross-checker queries: the object's
`markWord` classification and, through it, the monitor subsystem.
`anonOwner`, `ownedByThread` and `waitedByThread` describe
`mark.monitor()` and are meaningful only when `hasMonitor` is true
(the source only reaches them behind an `is_locked`/`!is_fast_locked`
guard). -/
structure ObjState where
  /-- `mark.is_fast_locked()`. -/
  isFastLocked : Bool
  /-- the mark word has a monitor (`mark.has_monitor()`). -/
  hasMonitor : Bool
  /-- `mark.monitor()->is_owner_anonymous()`. -/
  anonOwner : Bool
  /-- `mark.monitor()->is_owner(get_thread())`. -/
  ownedByThread : Bool
  /-- `get_thread()->current_waiting_monitor() == mark.monitor()`. -/
  waitedByThread : Bool

/-- `obj->is_locked()`: the mark word is fast-locked or carries a monitor. -/
def ObjState.isLocked (s : ObjState) : Bool :=
  s.isFastLocked || s.hasMonitor

/-- The first backward scan of the anchor search
(`while (lock_index-- > 0) { ... if (contains(obj)) break; }`):
given the `contains` predicate and the lock order, return the largest
index `< k` whose object is on the lock stack, or `none`. -/
def scanBack (cont : Nat → Bool) (l : List Nat) (k : Nat) : Option Nat :=
  match k with
  | 0 => none
  | k + 1 => if cont (l.getD k 0) then some k else scanBack cont l k

/-- The forward search of the anchor computation
(`for (int index = 0; index < top_index; index++) ...`): scan indices
`i, i + 1, ...` for the first slot holding `obj`; `rem` is the number of
indices left to visit (`top_index - i` at entry, so the iteration space is
exactly the C loop's). -/
def findFirstIdx (base : Nat → Oop) (obj : Nat) : Nat → Nat → Option Nat
  | _, 0 => none
  | i, rem + 1 => if base i = some obj then some i else findFirstIdx base obj (i + 1) rem

/-- The value of `top_index` after the anchor's forward search: the loop
body replaces it with `index + 1` on the first hit and leaves it unchanged
(at `n`) when nothing matches. -/
def foundTopIndex (base : Nat → Oop) (n : Nat) (obj : Nat) : Nat :=
  match findFirstIdx base obj 0 n with
  | some p => p + 1
  | none => n

/-- The recursive-repeat count of the anchor search
(`while (lock_index-- > 0 && lock_order.at(lock_index) == obj) top_index++`):
the number of consecutive positions `k-1, k-2, ...` of `l` that still
hold `obj`. -/
def countRepeats (l : List Nat) (obj : Nat) : Nat → Nat
  | 0 => 0
  | k + 1 => if l.getD k 0 = obj then countRepeats l obj k + 1 else 0

/-- The anchor computation of `verify_consistent_lock_order`
(lines 111–139), executed when `!leaf_frame`: the result is the value of
`top_index` entering the main scan, or `none` when the
`"too many obj in lock_order"` assertion fires. -/
def anchorWindow (sr : Bool) (base : Nat → Oop) (cont : Nat → Bool)
    (n : Nat) (l : List Nat) : Option Nat :=
  match scanBack cont l l.length with
  | none => some n
  | some k =>
    let obj := l.getD k 0
    let w := foundTopIndex base n obj
    if sr then
      let w' := w + countRepeats l obj k
      if w' ≤ n then some w' else none
    else some w

/-- The `top_index` anchor (called `window` in the spec) with which the main
backward scan starts: the full ledger size `n` for a leaf frame, the
searched-for anchor otherwise. -/
def window0 (sr leaf : Bool) (base : Nat → Oop) (cont : Nat → Bool)
    (n : Nat) (l : List Nat) : Option Nat :=
  if leaf then some n else anchorWindow sr base cont n l

/-- The main backward scan of `verify_consistent_lock_order`
(lines 141–156), as the predicate "no assertion fires", over the
lock-order suffix positions `k-1, ..., 0` with current window `w`. -/
def checkScan (leaf : Bool) (base : Nat → Oop) (cont : Nat → Bool)
    (env : Nat → ObjState) (l : List Nat) : Nat → Nat → Bool
  | 0, _ => true
  | k + 1, w =>
    let obj := l.getD k 0
    (env obj).isLocked &&
    (if 0 < w ∧ some obj = base (w - 1) then
      ((env obj).isFastLocked || (env obj).anonOwner) &&
      checkScan leaf base cont env l k (w - 1)
    else
      (!(env obj).isFastLocked) &&
      ((env obj).ownedByThread || (!leaf && (env obj).waitedByThread)) &&
      (!cont obj) &&
      checkScan leaf base cont env l k w)

/-- `LockStack::verify_consistent_lock_order(GrowableArray<oop>&, bool)`
(lines 107–157), as the predicate "no assertion fires".  `env` is the
external per-object lock-state view; `l` is `lock_order`, oldest
acquisition first. -/
def verify_consistent_lock_order (cfg : LSConfig) (ls : LockStack)
    (env : Nat → ObjState) (l : List Nat) (leaf : Bool) : Bool :=
  match window0 cfg.supportsRecursive leaf ls.slot (ls.contains cfg)
      (topIndex cfg ls) l with
  | none => false
  | some w => checkScan leaf ls.slot (ls.contains cfg) env l l.length w

/-! ### Diagnostic dump `LockStack::print_on` -/

/-- One line of output of `LockStack::print_on`: either the entry at index
`i` looked like a plausible object and its own `print_on` was invoked, or
the raw value was printed tagged `"not an oop"`. -/
inductive PrintEvent where
  | objPrint (i : Nat) (o : Oop)
  | notAnOop (i : Nat) (o : Oop)
deriving DecidableEq, Repr

/-- The loop of `LockStack::print_on`
(`for (int i = to_index(_top); (--i) >= 0;)`): emits one event per index,
from `i - 1` down to `0`, choosing by `oopDesc::is_oop`. -/
def printLoop (isOop : Oop → Bool) (base : Nat → Oop) : Nat → List PrintEvent
  | 0 => []
  | i + 1 =>
    (if isOop (base i) then PrintEvent.objPrint i (base i)
     else PrintEvent.notAnOop i (base i)) :: printLoop isOop base i

/-- `LockStack::print_on(outputStream*)` (lines 160–170): the emitted
events paired with the ledger state after the call.  The source loop only
reads `_top` and `_base`, so the returned state is the input state. -/
def print_on (isOop : Oop → Bool) (cfg : LSConfig) (ls : LockStack) :
    List PrintEvent × LockStack :=
  (printLoop isOop ls.slot (topIndex cfg ls), ls)

/-! ### Concrete example instances (used by the witnesses) -/

/-- An example build configuration: `CAPACITY = 8`, `oopSize = 8`, data
region at byte offset 16, recursive lightweight locking supported. -/
def cfgA : LSConfig := ⟨8, 8, 16, true⟩

/-- An example ledger under `cfgA` holding the three objects 1, 2, 3
(`_top = 16 + 3 * 8`). -/
def lsA : LockStack := ⟨40, [some 1, some 2, some 3, none, none, none, none, none]⟩

/-- An example empty ledger under `cfgA`. -/
def lsE : LockStack := ⟨16, [none, none, none, none, none, none, none, none]⟩

/-- An example lock-state view where every object is fast-locked. -/
def envA : Nat → ObjState := fun _ => ⟨true, false, false, false, false⟩

/-- An example lock-state view where every object is inflated and its
monitor is owned by this thread. -/
def envB : Nat → ObjState := fun _ => ⟨false, true, false, true, false⟩

/-! ### Specification-side predicates (used to state the claims) -/

/-- Invariant I1, first half: every slot below `top` is non-empty. -/
def DensityOK (base : Nat → Oop) (top : Nat) : Prop :=
  ∀ i, i < top → base i ≠ none

/-- Invariant I2 with recursion support: two positions below `top` hold the
same reference only when the whole segment between them is constant
(one contiguous run). -/
def RunUnique (base : Nat → Oop) (top : Nat) : Prop :=
  ∀ a b, a < b → b < top → base a = base b → ∀ j, a ≤ j → j ≤ b → base j = base a

/-- Invariant I2 without recursion support: all live entries are distinct. -/
def AllDistinct (base : Nat → Oop) (top : Nat) : Prop :=
  ∀ a b, a < b → b < top → base a ≠ base b

/-- Invariant I1, second half: every slot from `top` up to the capacity is
empty (poison). -/
def PoisonOK (base : Nat → Oop) (top cap : Nat) : Prop :=
  ∀ i, top ≤ i → i < cap → base i = none

/-! ### Lemmas about the run-skipping loop -/

theorem skipRun_ge (base : Nat → Oop) (top : Nat) (o : Oop) (fuel : Nat) :
    ∀ i, i ≤ skipRun base top o i fuel := by
  induction fuel with
  | zero => intro i; exact le_refl i
  | succ fuel ih =>
    intro i
    rw [skipRun]
    split
    · exact le_trans (Nat.le_succ i) (ih (i + 1))
    · exact le_refl i

theorem skipRun_lt (base : Nat → Oop) (top : Nat) (o : Oop) (fuel : Nat) :
    ∀ i, i < top → skipRun base top o i fuel < top := by
  induction fuel with
  | zero => intro i hi; exact hi
  | succ fuel ih =>
    intro i hi
    rw [skipRun]
    split
    · next h => exact ih (i + 1) h.1
    · exact hi

theorem skipRun_const (base : Nat → Oop) (top : Nat) (o : Oop) (fuel : Nat) :
    ∀ i, base i = o → ∀ j, i ≤ j → j ≤ skipRun base top o i fuel → base j = o := by
  induction fuel with
  | zero =>
    intro i hi j hij hle
    have : j = i := le_antisymm hle hij
    exact this ▸ hi
  | succ fuel ih =>
    intro i hi j hij hle
    rw [skipRun] at hle
    split at hle
    · next h =>
      rcases Nat.eq_or_lt_of_le hij with rfl | hlt
      · exact hi
      · exact ih (i + 1) h.2 j hlt hle
    · have : j = i := le_antisymm hle hij
      exact this ▸ hi

theorem skipRun_stop (base : Nat → Oop) (top : Nat) (o : Oop) (fuel : Nat) :
    ∀ i, top ≤ i + 1 + fuel → skipRun base top o i fuel + 1 < top →
      base (skipRun base top o i fuel + 1) ≠ o := by
  induction fuel with
  | zero =>
    intro i hfuel hlt
    simp only [skipRun] at hlt
    exfalso
    omega
  | succ fuel ih =>
    intro i hfuel hlt
    rw [skipRun] at hlt ⊢
    by_cases h : i + 1 < top ∧ base (i + 1) = o
    · rw [if_pos h] at hlt ⊢
      exact ih (i + 1) (by omega) hlt
    · rw [if_neg h] at hlt ⊢
      intro heq
      exact h ⟨hlt, heq⟩

theorem runEnd_ge (sr : Bool) (base : Nat → Oop) (top i : Nat) :
    i ≤ runEnd sr base top i := by
  unfold runEnd
  split
  · exact skipRun_ge base top (base i) top i
  · exact le_refl i

theorem runEnd_lt (sr : Bool) (base : Nat → Oop) (top i : Nat) (hi : i < top) :
    runEnd sr base top i < top := by
  unfold runEnd
  split
  · exact skipRun_lt base top (base i) top i hi
  · exact hi

theorem runEnd_const (sr : Bool) (base : Nat → Oop) (top i : Nat) :
    ∀ j, i ≤ j → j ≤ runEnd sr base top i → base j = base i := by
  intro j h1 h2
  unfold runEnd at h2
  split at h2
  · exact skipRun_const base top (base i) top i rfl j h1 h2
  · have : j = i := le_antisymm h2 h1
    exact this ▸ rfl

theorem runEnd_stop (base : Nat → Oop) (top i : Nat)
    (hlt : runEnd true base top i + 1 < top) :
    base (runEnd true base top i + 1) ≠ base i := by
  have h := skipRun_stop base top (base i) top i (by omega)
  unfold runEnd at hlt ⊢
  rw [if_pos rfl] at hlt ⊢
  exact h hlt

/-! ### Characterizations of the elementary scans -/

theorem uniqueFrom_iff (base : Nat → Oop) (top i : Nat) :
    uniqueFrom base top i = true ↔ ∀ j, i < j → j < top → base i ≠ base j := by
  simp only [uniqueFrom, List.all_eq_true, List.mem_range'_1, decide_eq_true_eq]
  constructor
  · intro h j h1 h2
    exact h j ⟨by omega, by omega⟩
  · rintro h j ⟨h1, h2⟩
    exact h j (by omega) (by omega)

theorem contains_iff (cfg : LSConfig) (ls : LockStack) (o : Nat) :
    ls.contains cfg o = true ↔ ∃ i, i < topIndex cfg ls ∧ ls.slot i = some o := by
  simp only [LockStack.contains, List.any_eq_true, List.mem_range, decide_eq_true_eq]

theorem contains_eq_false_iff (cfg : LSConfig) (ls : LockStack) (o : Nat) :
    ls.contains cfg o = false ↔ ∀ i, i < topIndex cfg ls → ls.slot i ≠ some o := by
  rw [← Bool.not_eq_true, contains_iff]
  push_neg
  constructor
  · intro h i hi
    exact h i hi
  · intro h i hi
    exact h i hi

/-! ### Soundness of the structural slot scan -/

theorem verifyScan_density (sr : Bool) (base : Nat → Oop) (top : Nat) (fuel : Nat) :
    ∀ i, top ≤ i + fuel → verifyScan sr base top i fuel = true →
      ∀ a, i ≤ a → a < top → base a ≠ none := by
  induction fuel with
  | zero =>
    intro i hfuel _ a ha1 ha2
    exfalso
    omega
  | succ fuel ih =>
    intro i hfuel hscan a ha1 ha2
    have hi : i < top := by omega
    rw [verifyScan, if_pos hi] at hscan
    simp only [Bool.and_eq_true, decide_eq_true_eq] at hscan
    obtain ⟨⟨hnn, _⟩, hrest⟩ := hscan
    by_cases hae : a ≤ runEnd sr base top i
    · rw [runEnd_const sr base top i a ha1 hae]
      exact hnn
    · have hge := runEnd_ge sr base top i
      exact ih (runEnd sr base top i + 1) (by omega) hrest a (by omega) ha2

theorem verifyScan_run_unique (base : Nat → Oop) (top : Nat) (fuel : Nat) :
    ∀ i, top ≤ i + fuel → verifyScan true base top i fuel = true →
      ∀ a b, i ≤ a → a < b → b < top → base a = base b →
        ∀ j, a ≤ j → j ≤ b → base j = base a := by
  induction fuel with
  | zero =>
    intro i hfuel _ a b ha hab hb _ j _ _
    exfalso
    omega
  | succ fuel ih =>
    intro i hfuel hscan a b ha hab hb heq j hj1 hj2
    have hi : i < top := by omega
    rw [verifyScan, if_pos hi] at hscan
    simp only [Bool.and_eq_true, decide_eq_true_eq] at hscan
    obtain ⟨⟨_, huniq⟩, hrest⟩ := hscan
    have hge := runEnd_ge true base top i
    by_cases hae : runEnd true base top i + 1 ≤ a
    · exact ih (runEnd true base top i + 1) (by omega) hrest a b hae hab hb heq j hj1 hj2
    · have hai : base a = base i := runEnd_const true base top i a ha (by omega)
      by_cases hbe : b ≤ runEnd true base top i
      · have hji : base j = base i := runEnd_const true base top i j (by omega) (by omega)
        rw [hji, hai]
      · exfalso
        have h1 : base (runEnd true base top i) ≠ base b :=
          (uniqueFrom_iff base top (runEnd true base top i)).mp huniq b (by omega) hb
        have h2 : base (runEnd true base top i) = base i :=
          runEnd_const true base top i (runEnd true base top i) hge (le_refl _)
        exact h1 (by rw [h2, ← heq, hai])

theorem verifyScan_all_distinct (base : Nat → Oop) (top : Nat) (fuel : Nat) :
    ∀ i, top ≤ i + fuel → verifyScan false base top i fuel = true →
      ∀ a b, i ≤ a → a < b → b < top → base a ≠ base b := by
  induction fuel with
  | zero =>
    intro i hfuel _ a b ha hab hb
    exfalso
    omega
  | succ fuel ih =>
    intro i hfuel hscan a b ha hab hb
    have hi : i < top := by omega
    rw [verifyScan, if_pos hi] at hscan
    simp only [Bool.and_eq_true, decide_eq_true_eq] at hscan
    obtain ⟨⟨_, huniq⟩, hrest⟩ := hscan
    have hre : runEnd false base top i = i := by simp [runEnd]
    rcases Nat.eq_or_lt_of_le ha with rfl | hlt
    · have := (uniqueFrom_iff base top (runEnd false base top i)).mp huniq b
      rw [hre] at this
      exact this (by omega) hb
    · exact ih (runEnd false base top i + 1) (by rw [hre]; omega) hrest a b
        (by rw [hre]; omega) hab hb

/-! ### Completeness of the structural slot scan -/

theorem verifyScan_complete_run (base : Nat → Oop) (top : Nat) (fuel : Nat) :
    ∀ i, top ≤ i + fuel →
      (∀ a, i ≤ a → a < top → base a ≠ none) →
      (∀ a b, i ≤ a → a < b → b < top → base a = base b →
        ∀ j, a ≤ j → j ≤ b → base j = base a) →
      verifyScan true base top i fuel = true := by
  induction fuel with
  | zero => intro i _ _ _; rfl
  | succ fuel ih =>
    intro i hfuel hdens hrun
    by_cases hi : i < top
    · rw [verifyScan, if_pos hi]
      simp only [Bool.and_eq_true, decide_eq_true_eq]
      have hge := runEnd_ge true base top i
      have hlt := runEnd_lt true base top i hi
      refine ⟨⟨hdens i (le_refl i) hi, ?_⟩, ?_⟩
      · rw [uniqueFrom_iff]
        intro j hj1 hj2 heq
        have he : base (runEnd true base top i) = base i :=
          runEnd_const true base top i (runEnd true base top i) hge (le_refl _)
        have hnext : base (runEnd true base top i + 1) = base (runEnd true base top i) :=
          hrun (runEnd true base top i) j hge hj1 hj2 heq (runEnd true base top i + 1)
            (Nat.le_succ _) (by omega)
        have hstop : base (runEnd true base top i + 1) ≠ base i :=
          runEnd_stop base top i (by omega)
        exact hstop (by rw [hnext, he])
      · exact ih (runEnd true base top i + 1) (by omega)
          (fun a ha1 ha2 => hdens a (by omega) ha2)
          (fun a b ha1 hab hb heq => hrun a b (by omega) hab hb heq)
    · rw [verifyScan, if_neg hi]

theorem verifyScan_complete_distinct (base : Nat → Oop) (top : Nat) (fuel : Nat) :
    ∀ i, top ≤ i + fuel →
      (∀ a, i ≤ a → a < top → base a ≠ none) →
      (∀ a b, i ≤ a → a < b → b < top → base a ≠ base b) →
      verifyScan false base top i fuel = true := by
  induction fuel with
  | zero => intro i _ _ _; rfl
  | succ fuel ih =>
    intro i hfuel hdens hdist
    by_cases hi : i < top
    · rw [verifyScan, if_pos hi]
      simp only [Bool.and_eq_true, decide_eq_true_eq]
      have hre : runEnd false base top i = i := by simp [runEnd]
      refine ⟨⟨hdens i (le_refl i) hi, ?_⟩, ?_⟩
      · rw [uniqueFrom_iff, hre]
        intro j hj1 hj2
        exact hdist i j (le_refl i) hj1 hj2
      · rw [hre]
        exact ih (i + 1) (by omega)
          (fun a ha1 ha2 => hdens a (by omega) ha2)
          (fun a b ha1 hab hb => hdist a b (by omega) hab hb)
    · rw [verifyScan, if_neg hi]

/-- The poison-region loop of `verify`
(`for (int i = top; i < CAPACITY; i++) assert(_base[i] == nullptr)`). -/
theorem poisonAll_iff (base : Nat → Oop) (t c : Nat) :
    ((List.range' t (c - t)).all fun i => base i = none) = true ↔
      PoisonOK base t c := by
  simp only [List.all_eq_true, List.mem_range'_1, decide_eq_true_eq, PoisonOK]
  constructor
  · intro h i h1 h2
    exact h i ⟨by omega, by omega⟩
  · rintro h i ⟨h1, h2⟩
    exact h i (by omega) (by omega)

/-! ### Characterizations of the anchor search -/

theorem scanBack_eq_some (cont : Nat → Bool) (l : List Nat) (k : Nat)
    (hcont : cont (l.getD k 0) = true) :
    ∀ m, k < m → (∀ j, j < m → k < j → cont (l.getD j 0) = false) →
      scanBack cont l m = some k := by
  intro m
  induction m with
  | zero =>
    intro h
    exfalso
    omega
  | succ m ih =>
    intro hkm hnone
    rw [scanBack]
    by_cases hk : k = m
    · subst hk
      rw [if_pos hcont]
    · have hfalse : cont (l.getD m 0) = false := hnone m (Nat.lt_succ_self m) (by omega)
      rw [if_neg (by rw [hfalse]; exact Bool.false_ne_true)]
      exact ih (by omega) (fun j h1 h2 => hnone j (by omega) h2)

theorem findFirstIdx_spec (base : Nat → Oop) (obj : Nat) :
    ∀ rem i p, i ≤ p → p < i + rem → base p = some obj →
      (∀ q, q < p → i ≤ q → base q ≠ some obj) →
      findFirstIdx base obj i rem = some p := by
  intro rem
  induction rem with
  | zero =>
    intro i p h1 h2
    exfalso
    omega
  | succ rem ih =>
    intro i p h1 h2 hp hmin
    rw [findFirstIdx]
    by_cases hi : base i = some obj
    · rw [if_pos hi]
      have hpi : p = i := by
        by_contra hne
        exact hmin i (by omega) (le_refl i) hi
      rw [hpi]
    · rw [if_neg hi]
      have hpi : i < p := by
        rcases Nat.eq_or_lt_of_le h1 with rfl | h
        · exact absurd hp hi
        · exact h
      exact ih (i + 1) p (by omega) (by omega) hp (fun q hq1 hq2 => hmin q hq1 (by omega))

theorem findFirstIdx_lt (base : Nat → Oop) (obj : Nat) :
    ∀ rem i p, findFirstIdx base obj i rem = some p → i ≤ p ∧ p < i + rem := by
  intro rem
  induction rem with
  | zero =>
    intro i p h
    exact absurd h (by rw [findFirstIdx]; exact Option.noConfusion)
  | succ rem ih =>
    intro i p h
    rw [findFirstIdx] at h
    split at h
    · cases h
      omega
    · have := ih (i + 1) p h
      omega

theorem countRepeats_eq (l : List Nat) (obj : Nat) :
    ∀ k c, c ≤ k → (∀ j, j < k → k - c ≤ j → l.getD j 0 = obj) →
      (c = k ∨ l.getD (k - c - 1) 0 ≠ obj) → countRepeats l obj k = c := by
  intro k
  induction k with
  | zero =>
    intro c hc _ _
    interval_cases c
    rfl
  | succ k ih =>
    intro c hc hrun hmax
    match c with
    | 0 =>
      rcases hmax with h | h
      · exact absurd h.symm (Nat.succ_ne_zero k)
      · have : k + 1 - 0 - 1 = k := by omega
        rw [this] at h
        rw [countRepeats, if_neg h]
    | c + 1 =>
      have hk : l.getD k 0 = obj := hrun k (Nat.lt_succ_self k) (by omega)
      rw [countRepeats, if_pos hk]
      have : countRepeats l obj k = c := by
        apply ih c (by omega) (fun j h1 h2 => hrun j (by omega) (by omega))
        rcases hmax with h | h
        · left
          omega
        · right
          have heq : k + 1 - (c + 1) - 1 = k - c - 1 := by omega
          rw [heq] at h
          exact h
      rw [this]

theorem foundTopIndex_le (base : Nat → Oop) (n obj : Nat) :
    foundTopIndex base n obj ≤ n := by
  unfold foundTopIndex
  split
  · next p h =>
    have := findFirstIdx_lt base obj n 0 p h
    omega
  · exact le_refl n

/-- In any passing run the anchor `top_index` entering the main scan never
exceeds the ledger size `n`: the sole increments past `foundTopIndex ≤ n`
are guarded by the `"too many obj in lock_order"` assertion. -/
theorem window0_le (sr : Bool) (base : Nat → Oop) (cont : Nat → Bool)
    (n : Nat) (l : List Nat) :
    ∀ w, window0 sr false base cont n l = some w → w ≤ n := by
  intro w h
  unfold window0 anchorWindow at h
  rw [if_neg Bool.false_ne_true] at h
  rcases hscan : scanBack cont l l.length with _ | k <;> rw [hscan] at h
  · cases h
    exact le_refl n
  · simp only at h
    split at h
    · split at h
      · next hle =>
        cases h
        exact hle
      · exact Option.noConfusion h
    · cases h
      exact foundTopIndex_le base n (l.getD k 0)

theorem anchorWindow_eq_of_scanBack (sr : Bool) (base : Nat → Oop) (cont : Nat → Bool)
    (n : Nat) (l : List Nat) (k : Nat) (h : scanBack cont l l.length = some k) :
    anchorWindow sr base cont n l =
      (if sr then
        (if foundTopIndex base n (l.getD k 0) + countRepeats l (l.getD k 0) k ≤ n
         then some (foundTopIndex base n (l.getD k 0) + countRepeats l (l.getD k 0) k)
         else none)
       else some (foundTopIndex base n (l.getD k 0))) := by
  unfold anchorWindow
  rw [h]

theorem printLoop_eq_map (isOop : Oop → Bool) (base : Nat → Oop) :
    ∀ n, printLoop isOop base n =
      (List.range n).reverse.map (fun i =>
        if isOop (base i) then PrintEvent.objPrint i (base i)
        else PrintEvent.notAnOop i (base i)) := by
  intro n
  induction n with
  | zero => rfl
  | succ n ih =>
    rw [printLoop, List.range_succ]
    simp [ih]

/-! ### The claims -/

/-- Claim C6: the published offsets satisfy the offset algebra:
`end_offset() - start_offset() = CAPACITY * oopSize`, both offsets are
strictly positive, hence `start_offset() < end_offset()`.  The hypotheses
record what the source asserts or fixes at compile time: the base offset
inside `JavaThread` is positive (both functions `assert(offset > 0)`), and
`CAPACITY` and `oopSize` are positive compile-time constants. -/
theorem claim_C6_offset_algebra (cfg : LSConfig) (hbase : 0 < cfg.baseOffset)
    (hcap : 0 < cfg.capacity) (hoop : 0 < cfg.oopSize) :
    end_offset cfg - start_offset cfg = cfg.capacity * cfg.oopSize ∧
    0 < start_offset cfg ∧ 0 < end_offset cfg ∧
    start_offset cfg < end_offset cfg := by
  unfold start_offset end_offset
  have := Nat.mul_pos hcap hoop
  omega

/-- Witness for C6 at a concrete configuration
(`CAPACITY = 8`, `oopSize = 8`, base offset 16). -/
theorem claim_C6_offset_algebra_witness :
    (0 < (⟨8, 8, 16, true⟩ : LSConfig).baseOffset ∧
     0 < (⟨8, 8, 16, true⟩ : LSConfig).capacity ∧
     0 < (⟨8, 8, 16, true⟩ : LSConfig).oopSize) ∧
    (end_offset ⟨8, 8, 16, true⟩ - start_offset ⟨8, 8, 16, true⟩ =
       (⟨8, 8, 16, true⟩ : LSConfig).capacity * (⟨8, 8, 16, true⟩ : LSConfig).oopSize ∧
     0 < start_offset ⟨8, 8, 16, true⟩ ∧ 0 < end_offset ⟨8, 8, 16, true⟩ ∧
     start_offset ⟨8, 8, 16, true⟩ < end_offset ⟨8, 8, 16, true⟩) :=
  ⟨by decide, claim_C6_offset_algebra ⟨8, 8, 16, true⟩ (by decide) (by decide) (by decide)⟩

/-- Claim C7: construction initializes the top cursor to the start offset
(an empty ledger) and, in checked builds (which this embedding models),
sets every one of the `CAPACITY` slots to the poison/empty value. -/
theorem claim_C7_construction (cfg : LSConfig) :
    (LockStack.init cfg).top = start_offset cfg ∧
    ∀ i : Fin cfg.capacity, (LockStack.init cfg).slot i.val = none := by
  refine ⟨rfl, fun i => ?_⟩
  simp [LockStack.init, LockStack.slot, List.getD_eq_getElem?_getD,
    List.getElem?_replicate]

/-- Claim C9: when `verify` runs while the system is not at a safepoint and
the caller is not the owning Java thread, it performs only the cursor range
checks and succeeds exactly when the cursor is within
`[start_offset, end_offset]`, for arbitrary slot contents.  (The ambient
`LockingMode == LM_LIGHTWEIGHT` assertion, a global mode precondition of
every `verify` call, is taken as true.) -/
theorem claim_C9_verify_gate_off (cfg : LSConfig) (ls : LockStack)
    (atS isJT isOwn : Bool) (hsp : atS = false) (hown : (isJT && isOwn) = false) :
    verify true atS isJT isOwn cfg ls = true ↔
      (ls.top ≤ end_offset cfg ∧ start_offset cfg ≤ ls.top) := by
  subst hsp
  unfold verify
  rw [hown]
  simp [Bool.and_eq_true, decide_eq_true_eq]

/-- Witness for C9: a ledger whose slot contents would fail every content
check is accepted off-safepoint by a non-owner, with only the range checks
applied. -/
theorem claim_C9_verify_gate_off_witness :
    ((false : Bool) = false ∧ (true && false) = false) ∧
    (verify true false true false ⟨2, 1, 1, true⟩ ⟨3, [none, some 9]⟩ = true ↔
      ((3 : Nat) ≤ end_offset ⟨2, 1, 1, true⟩ ∧ start_offset ⟨2, 1, 1, true⟩ ≤ 3)) :=
  ⟨⟨rfl, rfl⟩, claim_C9_verify_gate_off ⟨2, 1, 1, true⟩ ⟨3, [none, some 9]⟩
    false true false rfl rfl⟩

/-- Claim C10: the diagnostic dump visits entries exactly in the order
`top - 1` down to `0`; each entry that passes the plausibility test
delegates to the referent's own print, the others are emitted as raw
addresses tagged "not an oop"; and the ledger state after the call is the
input state (the source loop performs no writes to `_top` or `_base`). -/
theorem claim_C10_print_on (isOop : Oop → Bool) (cfg : LSConfig) (ls : LockStack) :
    (print_on isOop cfg ls).2 = ls ∧
    (print_on isOop cfg ls).1 =
      (List.range (topIndex cfg ls)).reverse.map (fun i =>
        if isOop (ls.slot i) then PrintEvent.objPrint i (ls.slot i)
        else PrintEvent.notAnOop i (ls.slot i)) :=
  ⟨rfl, printLoop_eq_map isOop ls.slot (topIndex cfg ls)⟩

/-- Claim C4: on the content-checking path (at a safepoint, or called by
the owning Java thread), `verify` succeeds exactly when the stated
structural conditions hold: the cursor lies in `[start_offset, end_offset]`;
with `n = index(top)`, every slot in `[0, n)` is non-empty; the live region
satisfies the run-collapsed uniqueness condition (contiguous-run duplicates
only, and only with recursion support); and every slot in `[n, CAPACITY)`
is empty.  Any violation makes `verify` fail (a fatal assertion in the
source). -/
theorem claim_C4_verify_characterization (cfg : LSConfig) (ls : LockStack)
    (atS isJT isOwn : Bool) (hgate : (atS || (isJT && isOwn)) = true) :
    verify true atS isJT isOwn cfg ls = true ↔
      (ls.top ≤ end_offset cfg ∧ start_offset cfg ≤ ls.top ∧
       DensityOK ls.slot (topIndex cfg ls) ∧
       (cfg.supportsRecursive = true → RunUnique ls.slot (topIndex cfg ls)) ∧
       (cfg.supportsRecursive = false → AllDistinct ls.slot (topIndex cfg ls)) ∧
       PoisonOK ls.slot (topIndex cfg ls) cfg.capacity) := by
  unfold verify
  rw [hgate, if_pos rfl]
  simp only [Bool.true_and, Bool.and_eq_true, decide_eq_true_eq]
  constructor
  · rintro ⟨⟨h1, h2⟩, hscan, hpois⟩
    refine ⟨h1, h2, ?_, ?_, ?_, (poisonAll_iff ls.slot (topIndex cfg ls) cfg.capacity).mp hpois⟩
    · intro i hi
      exact verifyScan_density cfg.supportsRecursive ls.slot (topIndex cfg ls)
        (topIndex cfg ls) 0 (by omega) hscan i (Nat.zero_le i) hi
    · intro hsr a b hab hb heq j hj1 hj2
      rw [hsr] at hscan
      exact verifyScan_run_unique ls.slot (topIndex cfg ls) (topIndex cfg ls) 0
        (by omega) hscan a b (Nat.zero_le a) hab hb heq j hj1 hj2
    · intro hsr a b hab hb
      rw [hsr] at hscan
      exact verifyScan_all_distinct ls.slot (topIndex cfg ls) (topIndex cfg ls) 0
        (by omega) hscan a b (Nat.zero_le a) hab hb
  · rintro ⟨h1, h2, hd, hru, had, hp⟩
    refine ⟨⟨h1, h2⟩, ?_, (poisonAll_iff ls.slot (topIndex cfg ls) cfg.capacity).mpr hp⟩
    cases hsr : cfg.supportsRecursive
    · exact verifyScan_complete_distinct ls.slot (topIndex cfg ls) (topIndex cfg ls) 0
        (by omega) (fun a _ ha2 => hd a ha2)
        (fun a b _ hab hb => had hsr a b hab hb)
    · exact verifyScan_complete_run ls.slot (topIndex cfg ls) (topIndex cfg ls) 0
        (by omega) (fun a _ ha2 => hd a ha2)
        (fun a b _ hab hb heq => hru hsr a b hab hb heq)

/-- Witness for C4 at a concrete input: a two-entry ledger holding an
adjacent recursive pair, checked at a safepoint. -/
theorem claim_C4_verify_characterization_witness :
    ((true : Bool) || (false && false)) = true ∧
    (verify true true false false ⟨2, 1, 1, true⟩ ⟨3, [some 5, some 5]⟩ = true ↔
      ((3 : Nat) ≤ end_offset ⟨2, 1, 1, true⟩ ∧ start_offset ⟨2, 1, 1, true⟩ ≤ 3 ∧
       DensityOK (LockStack.slot ⟨3, [some 5, some 5]⟩)
         (topIndex ⟨2, 1, 1, true⟩ ⟨3, [some 5, some 5]⟩) ∧
       ((⟨2, 1, 1, true⟩ : LSConfig).supportsRecursive = true →
         RunUnique (LockStack.slot ⟨3, [some 5, some 5]⟩)
           (topIndex ⟨2, 1, 1, true⟩ ⟨3, [some 5, some 5]⟩)) ∧
       ((⟨2, 1, 1, true⟩ : LSConfig).supportsRecursive = false →
         AllDistinct (LockStack.slot ⟨3, [some 5, some 5]⟩)
           (topIndex ⟨2, 1, 1, true⟩ ⟨3, [some 5, some 5]⟩)) ∧
       PoisonOK (LockStack.slot ⟨3, [some 5, some 5]⟩)
         (topIndex ⟨2, 1, 1, true⟩ ⟨3, [some 5, some 5]⟩)
         (⟨2, 1, 1, true⟩ : LSConfig).capacity)) :=
  ⟨rfl, claim_C4_verify_characterization ⟨2, 1, 1, true⟩ ⟨3, [some 5, some 5]⟩
    true false false rfl⟩

/-- Claim C5: when the content-checking `verify` passes, two different live
positions hold the same reference only if recursive lightweight locking is
supported and the whole segment between them is one contiguous run of that
reference; contrapositively, any non-adjacent duplicate, and any duplicate
at all without recursion support, makes `verify` fail. -/
theorem claim_C5_uniqueness_with_recursion (cfg : LSConfig) (ls : LockStack)
    (atS isJT isOwn : Bool) (hgate : (atS || (isJT && isOwn)) = true)
    (hverify : verify true atS isJT isOwn cfg ls = true) :
    ∀ a b, a < b → b < topIndex cfg ls → ls.slot a = ls.slot b →
      cfg.supportsRecursive = true ∧
      ∀ j, a ≤ j → j ≤ b → ls.slot j = ls.slot a := by
  unfold verify at hverify
  rw [hgate, if_pos rfl] at hverify
  simp only [Bool.true_and, Bool.and_eq_true, decide_eq_true_eq] at hverify
  obtain ⟨-, hscan, -⟩ := hverify
  intro a b hab hb heq
  cases hsr : cfg.supportsRecursive
  · rw [hsr] at hscan
    exact absurd heq (verifyScan_all_distinct ls.slot (topIndex cfg ls)
      (topIndex cfg ls) 0 (by omega) hscan a b (Nat.zero_le a) hab hb)
  · rw [hsr] at hscan
    exact ⟨rfl, verifyScan_run_unique ls.slot (topIndex cfg ls) (topIndex cfg ls) 0
      (by omega) hscan a b (Nat.zero_le a) hab hb heq⟩

/-- Witness for C5: the recursive pair ledger again; `verify` passes and
the duplicate positions form one run under recursion support. -/
theorem claim_C5_uniqueness_with_recursion_witness :
    (((true : Bool) || (false && false)) = true ∧
     verify true true false false ⟨2, 1, 1, true⟩ ⟨3, [some 5, some 5]⟩ = true) ∧
    (∀ a b, a < b → b < topIndex ⟨2, 1, 1, true⟩ ⟨3, [some 5, some 5]⟩ →
      LockStack.slot ⟨3, [some 5, some 5]⟩ a = LockStack.slot ⟨3, [some 5, some 5]⟩ b →
      (⟨2, 1, 1, true⟩ : LSConfig).supportsRecursive = true ∧
      ∀ j, a ≤ j → j ≤ b →
        LockStack.slot ⟨3, [some 5, some 5]⟩ j = LockStack.slot ⟨3, [some 5, some 5]⟩ a) :=
  ⟨⟨rfl, by decide⟩, claim_C5_uniqueness_with_recursion ⟨2, 1, 1, true⟩
    ⟨3, [some 5, some 5]⟩ true false false rfl (by decide)⟩

/-- Claim C2: in the main backward scan, at a position whose object matches
the ledger entry at `window - 1` (with a non-empty window), the checks pass
exactly when the object is locked and its mark is fast-locked or its
monitor has an anonymous owner, and the scan then continues at the previous
element with the window reduced by exactly one slot. -/
theorem claim_C2_window_match_step (cfg : LSConfig) (ls : LockStack)
    (env : Nat → ObjState) (l : List Nat) (leaf : Bool) (k w : Nat)
    (hmatch : 0 < w ∧ some (l.getD k 0) = ls.slot (w - 1)) :
    checkScan leaf ls.slot (ls.contains cfg) env l (k + 1) w = true ↔
      ((env (l.getD k 0)).isLocked = true ∧
       ((env (l.getD k 0)).isFastLocked = true ∨ (env (l.getD k 0)).anonOwner = true) ∧
       checkScan leaf ls.slot (ls.contains cfg) env l k (w - 1) = true) := by
  simp only [checkScan, if_pos hmatch, Bool.and_eq_true, Bool.or_eq_true]

/-- Witness for C2: ledger `[1, 2, 3]`, lock order `[3]`, window 3:
the top entry matches and one slot is consumed. -/
theorem claim_C2_window_match_step_witness :
    (0 < 3 ∧ some (([3] : List Nat).getD 0 0) = lsA.slot (3 - 1)) ∧
    (checkScan true lsA.slot (lsA.contains cfgA) envA [3] (0 + 1) 3 = true ↔
      ((envA (([3] : List Nat).getD 0 0)).isLocked = true ∧
       ((envA (([3] : List Nat).getD 0 0)).isFastLocked = true ∨
        (envA (([3] : List Nat).getD 0 0)).anonOwner = true) ∧
       checkScan true lsA.slot (lsA.contains cfgA) envA [3] 0 (3 - 1) = true)) :=
  ⟨by decide, claim_C2_window_match_step cfgA lsA envA [3] true 0 3 (by decide)⟩

/-- Claim C3: in the main backward scan, at a position whose object does
not match the ledger entry at the current window position, the checks pass
exactly when the object is locked but not fast-locked, its monitor is owned
by this thread or — only when the frame is not the leaf frame — is the
monitor this thread is currently waiting on, and the object appears nowhere
in the ledger; violating any clause is a fatal assertion failure. -/
theorem claim_C3_else_branch_step (cfg : LSConfig) (ls : LockStack)
    (env : Nat → ObjState) (l : List Nat) (leaf : Bool) (k w : Nat)
    (hnomatch : ¬(0 < w ∧ some (l.getD k 0) = ls.slot (w - 1))) :
    checkScan leaf ls.slot (ls.contains cfg) env l (k + 1) w = true ↔
      ((env (l.getD k 0)).isLocked = true ∧
       (env (l.getD k 0)).isFastLocked = false ∧
       ((env (l.getD k 0)).ownedByThread = true ∨
        (leaf = false ∧ (env (l.getD k 0)).waitedByThread = true)) ∧
       (∀ i, i < topIndex cfg ls → ls.slot i ≠ some (l.getD k 0)) ∧
       checkScan leaf ls.slot (ls.contains cfg) env l k w = true) := by
  simp only [checkScan, if_neg hnomatch, Bool.and_eq_true, Bool.or_eq_true,
    Bool.not_eq_true', ← contains_eq_false_iff cfg ls (l.getD k 0)]
  tauto

/-- Witness for C3: empty ledger, lock order `[7]` with object 7 inflated
and owned by this thread, window 0: the else-branch checks pass. -/
theorem claim_C3_else_branch_step_witness :
    (¬(0 < 0 ∧ some (([7] : List Nat).getD 0 0) = lsE.slot (0 - 1))) ∧
    (checkScan false lsE.slot (lsE.contains cfgA) envB [7] (0 + 1) 0 = true ↔
      ((envB (([7] : List Nat).getD 0 0)).isLocked = true ∧
       (envB (([7] : List Nat).getD 0 0)).isFastLocked = false ∧
       ((envB (([7] : List Nat).getD 0 0)).ownedByThread = true ∨
        (false = false ∧ (envB (([7] : List Nat).getD 0 0)).waitedByThread = true)) ∧
       (∀ i, i < topIndex cfgA lsE → lsE.slot i ≠ some (([7] : List Nat).getD 0 0)) ∧
       checkScan false lsE.slot (lsE.contains cfgA) envB [7] 0 0 = true)) :=
  ⟨by decide, claim_C3_else_branch_step cfgA lsE envB [7] false 0 0 (by decide)⟩

/-- Claim C1: the anchor window of `verify_consistent_lock_order`.  For a
leaf frame the window is the full ledger size `n`.  Otherwise, with `k` the
last position of `true_lock_order` whose object is on the ledger, `p` the
lowest ledger index holding that object, and `c` the number of immediately
preceding repeats of that object in `true_lock_order`: without recursion
support the window is `p + 1`; with recursion support it is `p + 1 + c`
when that does not exceed `n`, and otherwise the
`"too many obj in lock_order"` assertion fires; in every passing case the
window never exceeds `n`. -/
theorem claim_C1_anchor_window (cfg : LSConfig) (ls : LockStack) (l : List Nat)
    (k p c : Nat)
    (hk : k < l.length)
    (hcont : ls.contains cfg (l.getD k 0) = true)
    (hlast : ∀ j, j < l.length → k < j → ls.contains cfg (l.getD j 0) = false)
    (hp : p < topIndex cfg ls)
    (hpslot : ls.slot p = some (l.getD k 0))
    (hpmin : ∀ q, q < p → ls.slot q ≠ some (l.getD k 0))
    (hc : c ≤ k)
    (hcrun : ∀ j, j < k → k - c ≤ j → l.getD j 0 = l.getD k 0)
    (hcmax : c = k ∨ l.getD (k - c - 1) 0 ≠ l.getD k 0) :
    window0 cfg.supportsRecursive true ls.slot (ls.contains cfg) (topIndex cfg ls) l =
      some (topIndex cfg ls) ∧
    (cfg.supportsRecursive = false →
      window0 cfg.supportsRecursive false ls.slot (ls.contains cfg) (topIndex cfg ls) l =
        some (p + 1)) ∧
    (cfg.supportsRecursive = true →
      window0 cfg.supportsRecursive false ls.slot (ls.contains cfg) (topIndex cfg ls) l =
        (if p + 1 + c ≤ topIndex cfg ls then some (p + 1 + c) else none)) ∧
    (∀ w, window0 cfg.supportsRecursive false ls.slot (ls.contains cfg)
        (topIndex cfg ls) l = some w → w ≤ topIndex cfg ls) := by
  have hscan : scanBack (ls.contains cfg) l l.length = some k :=
    scanBack_eq_some (ls.contains cfg) l k hcont l.length hk hlast
  have hfound : foundTopIndex ls.slot (topIndex cfg ls) (l.getD k 0) = p + 1 := by
    unfold foundTopIndex
    rw [findFirstIdx_spec ls.slot (l.getD k 0) (topIndex cfg ls) 0 p (Nat.zero_le p)
      (by omega) hpslot (fun q hq1 _ => hpmin q hq1)]
  have hcount : countRepeats l (l.getD k 0) k = c :=
    countRepeats_eq l (l.getD k 0) k c hc hcrun hcmax
  refine ⟨?_, ?_, ?_, window0_le cfg.supportsRecursive ls.slot (ls.contains cfg)
    (topIndex cfg ls) l⟩
  · unfold window0
    rw [if_pos rfl]
  · intro hsr
    unfold window0
    rw [if_neg Bool.false_ne_true,
      anchorWindow_eq_of_scanBack _ ls.slot (ls.contains cfg) (topIndex cfg ls) l k hscan,
      hsr, if_neg Bool.false_ne_true, hfound]
  · intro hsr
    unfold window0
    rw [if_neg Bool.false_ne_true,
      anchorWindow_eq_of_scanBack _ ls.slot (ls.contains cfg) (topIndex cfg ls) l k hscan,
      hsr, if_pos rfl, hfound, hcount]

/-- Witness for C1: ledger `[1, 2, 3]`, lock order `[2, 2, 3]`: the last
order entry present in the ledger is object 3 at order position `k = 2`,
its lowest ledger position is `p = 2`, and it has `c = 0` immediately
preceding repeats. -/
theorem claim_C1_anchor_window_witness :
    (2 < ([2, 2, 3] : List Nat).length ∧
     lsA.contains cfgA (([2, 2, 3] : List Nat).getD 2 0) = true ∧
     (∀ j, j < ([2, 2, 3] : List Nat).length → 2 < j →
       lsA.contains cfgA (([2, 2, 3] : List Nat).getD j 0) = false) ∧
     2 < topIndex cfgA lsA ∧
     lsA.slot 2 = some (([2, 2, 3] : List Nat).getD 2 0) ∧
     (∀ q, q < 2 → lsA.slot q ≠ some (([2, 2, 3] : List Nat).getD 2 0)) ∧
     0 ≤ 2 ∧
     (∀ j, j < 2 → 2 - 0 ≤ j → ([2, 2, 3] : List Nat).getD j 0 = ([2, 2, 3] : List Nat).getD 2 0) ∧
     (0 = 2 ∨ ([2, 2, 3] : List Nat).getD (2 - 0 - 1) 0 ≠ ([2, 2, 3] : List Nat).getD 2 0)) ∧
    (window0 cfgA.supportsRecursive true lsA.slot (lsA.contains cfgA) (topIndex cfgA lsA)
        [2, 2, 3] = some (topIndex cfgA lsA) ∧
     (cfgA.supportsRecursive = false →
       window0 cfgA.supportsRecursive false lsA.slot (lsA.contains cfgA) (topIndex cfgA lsA)
         [2, 2, 3] = some (2 + 1)) ∧
     (cfgA.supportsRecursive = true →
       window0 cfgA.supportsRecursive false lsA.slot (lsA.contains cfgA) (topIndex cfgA lsA)
         [2, 2, 3] = (if 2 + 1 + 0 ≤ topIndex cfgA lsA then some (2 + 1 + 0) else none)) ∧
     (∀ w, window0 cfgA.supportsRecursive false lsA.slot (lsA.contains cfgA)
         (topIndex cfgA lsA) [2, 2, 3] = some w → w ≤ topIndex cfgA lsA)) :=
  ⟨by decide, claim_C1_anchor_window cfgA lsA [2, 2, 3] 2 2 0 (by decide) (by decide)
    (by decide) (by decide) (by decide) (by decide) (by decide) (by decide) (by decide)⟩

end LoomLockStack
